import Mathlib

/-!
# Verification of the greenhouse-graphs data-access layer

Shallow embedding of `src/lib/greenhouseapi.js`: the `GreenhouseApi` HTTP
client, the `DateLookupCache` incremental date-range cache with its
promise-chain fetch serialization, and the `Greenhouse` facade.

Modelling conventions:
* Timestamps (`moment` instants) are integers at second granularity
  (`Time := Int`); `moment().format()` — the canonical second-precision
  string rendering — is modelled by `momentFormat`, an injective decimal
  rendering of the instant.
* The HTTP transport (axios) is an explicit collaborator parameter
  `transport : String → Except τ (ResponseBody β)` mapping a request URL to
  either a transport failure or a parsed JSON body.
* A promise that settles is modelled by `Except ε v`; the promise-chain
  state of a `DateLookupCache` (`this.currentFetch`) is modelled by the
  settled status of the chain tail (`chainErr : Option ε`), and the
  interleaving of issuance and execution by an explicit labelled transition
  system (`ChainSys`/`chainStep`).
-/

namespace GreenhouseGraphs

/-! ## Time utility (model of the `moment` collaborator) -/

/-- An instant, at the second granularity of the canonical `format()`
rendering. -/
abbrev Time := Int

/-- Seconds per day: `moment.subtract(d, 'days')` moves the instant by
`d * 86400` seconds. -/
def daySeconds : Int := 86400

/-- Little-endian decimal digits of `n`, by structural recursion on a fuel
bound so that concrete instances reduce in the kernel; agrees with
`Nat.digits 10` (`digitsRun_eq_digits`). -/
def digitsRun : Nat → Nat → List Nat
  | 0, _ => []
  | fuel + 1, n => if n = 0 then [] else n % 10 :: digitsRun fuel (n / 10)

theorem digitsRun_eq_digits :
    ∀ fuel n, n ≤ fuel → digitsRun fuel n = Nat.digits 10 n := by
  intro fuel
  induction fuel with
  | zero =>
    intro n h
    interval_cases n
    simp [digitsRun]
  | succ f ih =>
    intro n h
    by_cases hn : n = 0
    · simp [digitsRun, hn]
    · rw [digitsRun, if_neg hn,
        Nat.digits_def' (by norm_num : 1 < 10) (Nat.pos_of_ne_zero hn)]
      congr 1
      have := Nat.div_lt_self (Nat.pos_of_ne_zero hn) (by norm_num : 1 < 10)
      exact ih (n / 10) (by omega)

/-- Character list of the decimal rendering of a natural number,
most-significant digit first. -/
def natDigitsStr (n : Nat) : List Char :=
  ((digitsRun n n).map Nat.digitChar).reverse

theorem natDigitsStr_eq (n : Nat) :
    natDigitsStr n = ((Nat.digits 10 n).map Nat.digitChar).reverse := by
  rw [natDigitsStr, digitsRun_eq_digits n n le_rfl]

/-- Canonical string form of an instant: the model of `moment.format()`.
Moment's default format is an ISO-8601 string at second precision, which is
an injective rendering of the instant; we model it by the signed decimal
rendering of the integer timestamp (also injective, proved in
`momentFormat_injective`). -/
def momentFormat : Time → String
  | .ofNat n => String.mk (natDigitsStr n)
  | .negSucc n => String.mk ('-' :: natDigitsStr (n + 1))

/-- `moment(t).subtract(days, 'days')`. -/
def momentSubtractDays (t : Time) (days : Nat) : Time :=
  t - (days : Int) * daySeconds

theorem digitChar_inj_lt_ten {a b : Nat} (ha : a < 10) (hb : b < 10)
    (h : Nat.digitChar a = Nat.digitChar b) : a = b := by
  interval_cases a <;> interval_cases b <;> simp_all [Nat.digitChar]

theorem map_digitChar_inj : ∀ {l₁ l₂ : List Nat},
    (∀ d ∈ l₁, d < 10) → (∀ d ∈ l₂, d < 10) →
    l₁.map Nat.digitChar = l₂.map Nat.digitChar → l₁ = l₂
  | [], [], _, _, _ => rfl
  | [], _ :: _, _, _, h => by simp at h
  | _ :: _, [], _, _, h => by simp at h
  | a :: l₁, b :: l₂, h₁, h₂, h => by
    simp only [List.map_cons, List.cons.injEq] at h
    have ha := h₁ a (List.mem_cons_self a l₁)
    have hb := h₂ b (List.mem_cons_self b l₂)
    have := digitChar_inj_lt_ten ha hb h.1
    have := map_digitChar_inj (fun d hd => h₁ d (List.mem_cons_of_mem a hd))
      (fun d hd => h₂ d (List.mem_cons_of_mem b hd)) h.2
    simp_all

theorem natDigitsStr_inj {m n : Nat} (h : natDigitsStr m = natDigitsStr n) :
    m = n := by
  rw [natDigitsStr_eq, natDigitsStr_eq] at h
  have h' := List.reverse_injective h
  have hd := map_digitChar_inj
    (fun d hd => Nat.digits_lt_base (by norm_num) hd)
    (fun d hd => Nat.digits_lt_base (by norm_num) hd) h'
  have := Nat.ofDigits_digits 10 m
  have := Nat.ofDigits_digits 10 n
  rw [hd] at *
  omega

theorem natDigitsStr_no_minus {n : Nat} : '-' ∉ natDigitsStr n := by
  intro hmem
  rw [natDigitsStr_eq] at hmem
  rw [List.mem_reverse, List.mem_map] at hmem
  obtain ⟨d, hd, hc⟩ := hmem
  have : d < 10 := Nat.digits_lt_base (by norm_num) hd
  interval_cases d <;> simp_all [Nat.digitChar]

theorem momentFormat_injective : Function.Injective momentFormat := by
  intro a b h
  cases a with
  | ofNat m =>
    cases b with
    | ofNat n =>
      have h' : natDigitsStr m = natDigitsStr n := congrArg String.data h
      exact congrArg Int.ofNat (natDigitsStr_inj h')
    | negSucc n =>
      have h' : natDigitsStr m = '-' :: natDigitsStr (n + 1) :=
        congrArg String.data h
      have : '-' ∈ natDigitsStr m := by
        rw [h']; exact List.mem_cons_self '-' _
      exact absurd this natDigitsStr_no_minus
  | negSucc m =>
    cases b with
    | ofNat n =>
      have h' : natDigitsStr n = '-' :: natDigitsStr (m + 1) :=
        congrArg String.data h.symm
      have : '-' ∈ natDigitsStr n := by
        rw [h']; exact List.mem_cons_self '-' _
      exact absurd this natDigitsStr_no_minus
    | negSucc n =>
      have h' : '-' :: natDigitsStr (m + 1) = '-' :: natDigitsStr (n + 1) :=
        congrArg String.data h
      have := natDigitsStr_inj (List.cons_injective h')
      exact congrArg Int.negSucc (by omega)

/-! ## API client (`GreenhouseApi`)

`logs` and `history` format the date range into the request path, perform a
GET through the transport, parse each returned item's `when` field with the
time utility, and return the items reversed.  A missing `items` array in the
body makes the `forEach` in the source throw, rejecting the promise: that
rejection is the `MalformedResponseError` of the spec's taxonomy, and a
transport rejection is its `TransportError`. -/

/-- A raw range-query item as received on the wire: a timestamp string plus
the rest of the payload (value, level, message, …), kept abstract. -/
structure RawItem (β : Type) where
  whenStr : String
  payload : β
deriving DecidableEq, Repr

/-- An item after the client parsed its `when` field into a Timestamp. -/
structure ParsedItem (β : Type) where
  when : Time
  payload : β
deriving DecidableEq, Repr

/-- A parsed JSON response body for a range query; `items := none` models a
body in which the expected `items` array is absent. -/
structure ResponseBody (β : Type) where
  items : Option (List (RawItem β))
deriving DecidableEq, Repr

/-- Failure taxonomy of a range query: the transport rejected (network or
non-2xx), or the body lacked the `items` array. -/
inductive ApiError (τ : Type) where
  | transport (err : τ)
  | malformedResponse
deriving DecidableEq, Repr

/-- `item.when = moment(item.when)`: parse the `when` field with the time
utility's parse function. -/
def parseItem (parse : String → Time) (i : RawItem β) : ParsedItem β :=
  { when := parse i.whenStr, payload := i.payload }

/-- Direct Greenhouse API client: its only state is the base URL. -/
structure GreenhouseApi where
  baseUrl : String
deriving DecidableEq, Repr

/-- Request path of `logs`: `{base}/logs/{level}/{start}/{end}` with the
dates in canonical string form. -/
def GreenhouseApi.logsPath (api : GreenhouseApi) (logLevel : String)
    (start endTime : Time) : String :=
  api.baseUrl ++ "/logs/" ++ logLevel ++ "/" ++ momentFormat start ++ "/" ++
    momentFormat endTime

/-- Request path of `history`: `{base}/{stat}/history/{start}/{end}` with
the dates in canonical string form. -/
def GreenhouseApi.historyPath (api : GreenhouseApi) (stat : String)
    (start endTime : Time) : String :=
  api.baseUrl ++ "/" ++ stat ++ "/history/" ++ momentFormat start ++ "/" ++
    momentFormat endTime

/-- `GreenhouseApi.logs(logLevel, start, end)`: format the dates into the
path, GET it, parse each item's `when`, return the items reversed. -/
def GreenhouseApi.logs (api : GreenhouseApi)
    (transport : String → Except τ (ResponseBody β))
    (parse : String → Time) (logLevel : String) (start endTime : Time) :
    Except (ApiError τ) (List (ParsedItem β)) :=
  match transport (api.logsPath logLevel start endTime) with
  | .error e => .error (.transport e)
  | .ok body =>
    match body.items with
    | none => .error .malformedResponse
    | some items => .ok ((items.map (parseItem parse)).reverse)

/-- `GreenhouseApi.history(stat, start, end)`: same contract as `logs`
against the stat's history path. -/
def GreenhouseApi.history (api : GreenhouseApi)
    (transport : String → Except τ (ResponseBody β))
    (parse : String → Time) (stat : String) (start endTime : Time) :
    Except (ApiError τ) (List (ParsedItem β)) :=
  match transport (api.historyPath stat start endTime) with
  | .error e => .error (.transport e)
  | .ok body =>
    match body.items with
    | none => .error .malformedResponse
    | some items => .ok ((items.map (parseItem parse)).reverse)

/-! ## Date-range cache (`DateLookupCache`)

State of one cache instance.  The JS field `currentFetch` (the tail of the
promise chain) is modelled by its settled status at the points where the
chain is quiescent: `chainErr = none` means the tail is fulfilled,
`chainErr = some e` means it is rejected with `e` (a `.then` with no
rejection handler keeps a rejected chain rejected).  The bound getter
closure is passed at each call rather than stored, so that the state stays
first-order; the facade supplies the same closure on every call. -/
structure DateLookupCache (α ε : Type) where
  initialTimeAgoDays : Nat
  lastEndTime : Option Time
  cache : List α
  chainErr : Option ε
deriving DecidableEq, Repr

/-- The `DateLookupCache` constructor: `lastEndTime = null`, empty cache,
`currentFetch` an already-fulfilled promise. -/
def mkDateLookupCache (α ε : Type) (initialTimeAgoDays : Nat) :
    DateLookupCache α ε :=
  { initialTimeAgoDays := initialTimeAgoDays
    lastEndTime := none
    cache := []
    chainErr := none }

/-- The `start` computed by `fetchNow`:
`lastEndTime === null ? moment().subtract(days, 'days') : lastEndTime`. -/
def computeStart (lastEndTime : Option Time) (initialTimeAgoDays : Nat)
    (now : Time) : Time :=
  match lastEndTime with
  | none => momentSubtractDays now initialTimeAgoDays
  | some t => t

/-- Observable outcome of one `fetch`/`fetchNow` call: the state after the
call, the settled value of the returned promise, and the getter invocations
the call performed (each recorded as its `(start, end)` argument pair). -/
structure FetchOutcome (α ε : Type) where
  state : DateLookupCache α ε
  result : Except ε (List α)
  getterCalls : List (Time × Time)
deriving Repr

/-- `DateLookupCache.fetchNow`, executed at instant `now` against the bound
getter: compute `start` and `end = now`, record `lastEndTime := end`, skip
the getter when the canonical forms of `start` and `end` coincide, otherwise
invoke the getter and append its data to the cache. -/
def DateLookupCache.fetchNow (c : DateLookupCache α ε) (now : Time)
    (getter : Time → Time → Except ε (List α)) : FetchOutcome α ε :=
  let start := computeStart c.lastEndTime c.initialTimeAgoDays now
  let endTime := now
  let c₁ := { c with lastEndTime := some endTime }
  if momentFormat start = momentFormat endTime then
    { state := c₁, result := .ok c₁.cache, getterCalls := [] }
  else
    match getter start endTime with
    | .ok data =>
      { state := { c₁ with cache := c₁.cache ++ data }
        result := .ok (c₁.cache ++ data)
        getterCalls := [(start, endTime)] }
    | .error e =>
      { state := c₁, result := .error e, getterCalls := [(start, endTime)] }

/-- `DateLookupCache.fetch`, in the sequential (awaited) case:
`this.currentFetch = this.currentFetch.then(() => this.fetchNow())`.
If the chain is rejected, the `.then` callback never runs and the returned
promise rejects with the same error; otherwise `fetchNow` executes, and a
rejection of its promise leaves the chain rejected. -/
def DateLookupCache.fetch (c : DateLookupCache α ε) (now : Time)
    (getter : Time → Time → Except ε (List α)) : FetchOutcome α ε :=
  match c.chainErr with
  | some e => { state := c, result := .error e, getterCalls := [] }
  | none =>
    let o := c.fetchNow now getter
    match o.result with
    | .error e =>
      { o with state := { o.state with chainErr := some e } }
    | .ok _ => o

/-- Accumulated outcome of a sequence of awaited `fetch` calls. -/
structure RunOutcome (α ε : Type) where
  state : DateLookupCache α ε
  results : List (Except ε (List α))
  getterCalls : List (Time × Time)
deriving Repr

/-- Run a sequence of awaited `fetch` calls; each step supplies the instant
at which the call executes and the bound getter's behaviour at that step. -/
def runFetches (c : DateLookupCache α ε) :
    List (Time × (Time → Time → Except ε (List α))) → RunOutcome α ε
  | [] => { state := c, results := [], getterCalls := [] }
  | (now, getter) :: rest =>
    let o := c.fetch now getter
    let r := runFetches o.state rest
    { state := r.state
      results := o.result :: r.results
      getterCalls := o.getterCalls ++ r.getterCalls }

/-! ## Facade (`Greenhouse`)

One API client plus five independent cache instances.  `σ` is the record
type of the four stat caches, `λα` that of the log cache. -/
structure Greenhouse (σ lα ε : Type) where
  api : GreenhouseApi
  logsCache : DateLookupCache lα ε
  temperatureCache : DateLookupCache σ ε
  humidityCache : DateLookupCache σ ε
  fanCache : DateLookupCache σ ε
  waterCache : DateLookupCache σ ε
deriving DecidableEq, Repr

/-- `Greenhouse.resetStatHistory(lookupDays)`: replace the four stat caches
with fresh `DateLookupCache` instances (bound to getters closing over the
new parameters); the log cache is untouched. -/
def Greenhouse.resetStatHistory (g : Greenhouse σ lα ε) (lookupDays : Nat) :
    Greenhouse σ lα ε :=
  { g with
    temperatureCache := mkDateLookupCache σ ε lookupDays
    humidityCache := mkDateLookupCache σ ε lookupDays
    fanCache := mkDateLookupCache σ ε lookupDays
    waterCache := mkDateLookupCache σ ε lookupDays }

/-- `Greenhouse.resetLogHistory(logLevel, lookupDays)`: replace the log
cache with a fresh instance (bound to a getter closing over `logLevel`);
the four stat caches are untouched. -/
def Greenhouse.resetLogHistory (g : Greenhouse σ lα ε) (lookupDays : Nat) :
    Greenhouse σ lα ε :=
  { g with logsCache := mkDateLookupCache lα ε lookupDays }

/-! ## Promise-chain transition system

`fetch()` returns `this.currentFetch = this.currentFetch.then(() =>
this.fetchNow())`: issuing a call synchronously appends its execution to the
chain, and the event loop runs each queued execution only once the previous
chain link has settled.  The interleaving of issuance, execution start, and
getter settlement is modelled by a labelled transition system:

* `issue` — a `fetch()` call is made; its reaction is appended to the chain
  (FIFO, because each call chains on the promise returned by the previous
  call).
* `start now` — the event loop starts the next queued reaction, enabled only
  when no earlier execution is still in flight (`inFlight = none`): the
  previous chain link has settled.  If the chain is rejected the reaction is
  skipped (the call's promise rejects with the same error); otherwise
  `fetchNow` runs its synchronous part at instant `now`: compute
  `start`/`end`, record `lastEndTime := end`, and either resolve at once
  (no-op branch) or invoke the getter.
* `resolveGetter data` / `rejectGetter e` — the in-flight getter promise
  settles, completing that execution.

Histories kept for the statements: `executed` is the ids of calls whose
execution began, in order; `execLog` the `(start, end)` pair computed by
each non-skipped execution, in order; `getterLog` the argument pairs of the
getter invocations, in order. -/
structure ChainSys (α ε : Type) where
  initialTimeAgoDays : Nat
  lastEndTime : Option Time
  cache : List α
  chainErr : Option ε
  inFlight : Option (Time × Time)
  queued : List Nat
  nextId : Nat
  executed : List Nat
  execLog : List (Time × Time)
  getterLog : List (Time × Time)
deriving Repr

/-- Events of the promise-chain transition system. -/
inductive ChainEv (α ε : Type) where
  | issue
  | start (now : Time)
  | resolveGetter (data : List α)
  | rejectGetter (e : ε)

/-- One transition; `none` when the event is not enabled in state `s`. -/
def chainStep (s : ChainSys α ε) : ChainEv α ε → Option (ChainSys α ε)
  | .issue =>
    some { s with queued := s.queued ++ [s.nextId], nextId := s.nextId + 1 }
  | .start now =>
    match s.inFlight, s.queued with
    | none, i :: rest =>
      match s.chainErr with
      | some _ =>
        some { s with queued := rest, executed := s.executed ++ [i] }
      | none =>
        let st := computeStart s.lastEndTime s.initialTimeAgoDays now
        let endTime := now
        let s' := { s with lastEndTime := some endTime, queued := rest,
                           executed := s.executed ++ [i],
                           execLog := s.execLog ++ [(st, endTime)] }
        if momentFormat st = momentFormat endTime then
          some s'
        else
          some { s' with inFlight := some (st, endTime),
                         getterLog := s.getterLog ++ [(st, endTime)] }
    | _, _ => none
  | .resolveGetter data =>
    match s.inFlight with
    | some _ => some { s with cache := s.cache ++ data, inFlight := none }
    | none => none
  | .rejectGetter e =>
    match s.inFlight with
    | some _ => some { s with chainErr := some e, inFlight := none }
    | none => none

/-- Run a list of events; events not enabled in the current state are
ignored. -/
def runChain (s : ChainSys α ε) (evs : List (ChainEv α ε)) : ChainSys α ε :=
  evs.foldl (fun s ev => (chainStep s ev).getD s) s

/-- A fresh cache instance's chain state. -/
def mkChainSys (α ε : Type) (initialTimeAgoDays : Nat) : ChainSys α ε :=
  { initialTimeAgoDays := initialTimeAgoDays
    lastEndTime := none
    cache := []
    chainErr := none
    inFlight := none
    queued := []
    nextId := 0
    executed := []
    execLog := []
    getterLog := [] }

/-- Each execution's `start` is the previous execution's `end`: no stale
boundary is ever observed. -/
def chainAdj : List (Time × Time) → Bool
  | (_, e₁) :: (s₂, e₂) :: rest => s₂ == e₁ && chainAdj ((s₂, e₂) :: rest)
  | _ => true

/-- Inductive invariant of the chain system: `lastEndTime` is the `end` of
the latest execution, consecutive executions chain their boundaries, calls
begin execution in issuance order, and the getter is invoked exactly for
the non-no-op executions with their computed boundaries. -/
def ChainInv (s : ChainSys α ε) : Prop :=
  s.lastEndTime = s.execLog.getLast?.map Prod.snd ∧
  chainAdj s.execLog = true ∧
  s.executed ++ s.queued = List.range s.nextId ∧
  s.getterLog =
    s.execLog.filter (fun p => decide (¬ momentFormat p.1 = momentFormat p.2))

theorem chainAdj_append_last (c : Time) :
    ∀ (l : List (Time × Time)) (a b : Time),
      chainAdj l = true → l.getLast? = some (a, b) →
      chainAdj (l ++ [(b, c)]) = true := by
  intro l
  induction l with
  | nil => intro a b _ h; simp at h
  | cons x t ih =>
    intro a b hadj hlast
    cases t with
    | nil =>
      obtain ⟨x1, x2⟩ := x
      simp [List.getLast?] at hlast
      simp [chainAdj, hlast.2]
    | cons y t' =>
      obtain ⟨x1, x2⟩ := x
      obtain ⟨y1, y2⟩ := y
      rw [List.getLast?_cons_cons] at hlast
      simp only [chainAdj, Bool.and_eq_true] at hadj
      have := ih a b hadj.2 hlast
      simpa [chainAdj, hadj.1] using this

theorem chainStep_inv {s s' : ChainSys α ε} {ev : ChainEv α ε}
    (hinv : ChainInv s) (hstep : chainStep s ev = some s') : ChainInv s' := by
  obtain ⟨h₁, h₂, h₃, h₄⟩ := hinv
  cases ev with
  | issue =>
    simp only [chainStep, Option.some.injEq] at hstep
    subst hstep
    refine ⟨h₁, h₂, ?_, h₄⟩
    simp [← List.append_assoc, h₃, List.range_succ]
  | start now =>
    cases hf : s.inFlight with
    | some p =>
      cases hq : s.queued <;> simp [chainStep, hf, hq] at hstep
    | none =>
      cases hq : s.queued with
      | nil => simp [chainStep, hf, hq] at hstep
      | cons i rest =>
        cases hc : s.chainErr with
        | some e =>
          simp only [chainStep, hf, hq, hc, Option.some.injEq] at hstep
          subst hstep
          refine ⟨h₁, h₂, ?_, h₄⟩
          rw [List.append_assoc, List.singleton_append, ← hq]
          exact h₃
        | none =>
          simp only [chainStep, hf, hq, hc] at hstep
          by_cases hfmt : momentFormat
              (computeStart s.lastEndTime s.initialTimeAgoDays now) =
              momentFormat now
          · rw [if_pos hfmt] at hstep
            simp only [Option.some.injEq] at hstep
            subst hstep
            refine ⟨by simp, ?_, ?_, ?_⟩
            · cases hlog : s.execLog with
              | nil => simp [hlog, chainAdj]
              | cons p t =>
                have hlast : s.execLog.getLast? ≠ none := by
                  simp [hlog]
                obtain ⟨⟨a, b⟩, hab⟩ := Option.ne_none_iff_exists'.mp hlast
                have hle : s.lastEndTime = some b := by rw [h₁, hab]; rfl
                have : computeStart s.lastEndTime s.initialTimeAgoDays now
                    = b := by rw [hle]; rfl
                rw [this]
                simpa [hlog] using
                  chainAdj_append_last now s.execLog a b h₂ hab
            · rw [List.append_assoc, List.singleton_append, ← hq]
              exact h₃
            · simp [List.filter_append, h₄, hfmt]
          · rw [if_neg hfmt] at hstep
            simp only [Option.some.injEq] at hstep
            subst hstep
            refine ⟨by simp, ?_, ?_, ?_⟩
            · cases hlog : s.execLog with
              | nil => simp [hlog, chainAdj]
              | cons p t =>
                have hlast : s.execLog.getLast? ≠ none := by
                  simp [hlog]
                obtain ⟨⟨a, b⟩, hab⟩ := Option.ne_none_iff_exists'.mp hlast
                have hle : s.lastEndTime = some b := by rw [h₁, hab]; rfl
                have : computeStart s.lastEndTime s.initialTimeAgoDays now
                    = b := by rw [hle]; rfl
                rw [this]
                simpa [hlog] using
                  chainAdj_append_last now s.execLog a b h₂ hab
            · rw [List.append_assoc, List.singleton_append, ← hq]
              exact h₃
            · simp [List.filter_append, h₄, hfmt]
  | resolveGetter data =>
    cases hf : s.inFlight with
    | none => simp [chainStep, hf] at hstep
    | some p =>
      simp only [chainStep, hf, Option.some.injEq] at hstep
      subst hstep
      exact ⟨h₁, h₂, h₃, h₄⟩
  | rejectGetter e =>
    cases hf : s.inFlight with
    | none => simp [chainStep, hf] at hstep
    | some p =>
      simp only [chainStep, hf, Option.some.injEq] at hstep
      subst hstep
      exact ⟨h₁, h₂, h₃, h₄⟩

theorem runChain_inv {s : ChainSys α ε} (hinv : ChainInv s)
    (evs : List (ChainEv α ε)) : ChainInv (runChain s evs) := by
  induction evs generalizing s with
  | nil => exact hinv
  | cons ev rest ih =>
    have hstep : ChainInv ((chainStep s ev).getD s) := by
      cases h : chainStep s ev with
      | none => exact hinv
      | some s' => exact chainStep_inv hinv h
    exact ih hstep

theorem mkChainSys_inv (α ε : Type) (days : Nat) :
    ChainInv (mkChainSys α ε days) := by
  refine ⟨rfl, rfl, rfl, rfl⟩

/-! ## Helper lemmas about `fetchNow` and `fetch` -/

theorem fetchNow_lastEndTime (c : DateLookupCache α ε) (now : Time)
    (getter : Time → Time → Except ε (List α)) :
    (c.fetchNow now getter).state.lastEndTime = some now := by
  simp only [DateLookupCache.fetchNow]
  split
  · rfl
  · split <;> rfl

theorem fetch_lastEndTime_of_clean (c : DateLookupCache α ε) (now : Time)
    (getter : Time → Time → Except ε (List α)) (h : c.chainErr = none) :
    (c.fetch now getter).state.lastEndTime = some now := by
  simp only [DateLookupCache.fetch, h]
  cases hr : (c.fetchNow now getter).result <;>
    simp [hr, fetchNow_lastEndTime]

theorem fetchNow_cache_extends (c : DateLookupCache α ε) (now : Time)
    (getter : Time → Time → Except ε (List α)) :
    ∃ d, (c.fetchNow now getter).state.cache = c.cache ++ d := by
  simp only [DateLookupCache.fetchNow]
  split
  · exact ⟨[], by simp⟩
  · split
    · exact ⟨_, rfl⟩
    · exact ⟨[], by simp⟩

theorem fetch_cache_extends (c : DateLookupCache α ε) (now : Time)
    (getter : Time → Time → Except ε (List α)) :
    ∃ d, (c.fetch now getter).state.cache = c.cache ++ d := by
  simp only [DateLookupCache.fetch]
  cases hc : c.chainErr with
  | some e => exact ⟨[], by simp⟩
  | none =>
    cases hr : (c.fetchNow now getter).result <;>
      simpa [hr] using fetchNow_cache_extends c now getter

theorem runFetches_cache_extends (c : DateLookupCache α ε)
    (steps : List (Time × (Time → Time → Except ε (List α)))) :
    ∃ ext, (runFetches c steps).state.cache = c.cache ++ ext := by
  induction steps generalizing c with
  | nil => exact ⟨[], by simp [runFetches]⟩
  | cons sg rest ih =>
    obtain ⟨now, getter⟩ := sg
    obtain ⟨d, hd⟩ := fetch_cache_extends c now getter
    obtain ⟨ext, hext⟩ := ih (c.fetch now getter).state
    exact ⟨d ++ ext, by simp [runFetches, hext, hd]⟩

/-! ## Claim theorems -/

/-- C4: a fetch whose getter is invoked and succeeds with `data` leaves the
cache equal to the old cache concatenated with `data` and resolves with the
full updated cache; and across any sequence of `fetch` calls the cache is
only ever extended (no element removed or reordered). -/
theorem fetch_append_only (α ε : Type) (c : DateLookupCache α ε) (now : Time)
    (getter : Time → Time → Except ε (List α)) (s e : Time) (data : List α)
    (steps : List (Time × (Time → Time → Except ε (List α)))) :
    ((c.fetchNow now getter).getterCalls = [(s, e)] → getter s e = .ok data →
      (c.fetchNow now getter).state.cache = c.cache ++ data ∧
      (c.fetchNow now getter).result = .ok (c.cache ++ data)) ∧
    ∃ ext, (runFetches c steps).state.cache = c.cache ++ ext := by
  refine ⟨?_, runFetches_cache_extends c steps⟩
  intro hcalls hok
  simp only [DateLookupCache.fetchNow] at hcalls ⊢
  by_cases hfmt : momentFormat
      (computeStart c.lastEndTime c.initialTimeAgoDays now) =
      momentFormat now
  · simp [hfmt] at hcalls
  · rw [if_neg hfmt] at hcalls ⊢
    cases hg : getter (computeStart c.lastEndTime c.initialTimeAgoDays now)
        now with
    | ok d =>
      simp only [hg, List.cons.injEq, Prod.mk.injEq, and_true] at hcalls
      obtain ⟨hs, he⟩ := hcalls
      rw [← hs, ← he] at hok
      rw [hg] at hok
      cases hok
      simp [hg]
    | error er =>
      simp only [hg, List.cons.injEq, Prod.mk.injEq, and_true] at hcalls
      obtain ⟨hs, he⟩ := hcalls
      rw [← hs, ← he] at hok
      rw [hg] at hok
      cases hok

/-- Witness for C4 at a concrete input: a fresh one-day cache fetched at
`t = 100` with a getter returning `[7]` ends with cache `[7]` and resolves
with it, and a two-step run only extends the cache. -/
theorem fetch_append_only_witness :
    ((mkDateLookupCache Nat Nat 1).fetchNow 100
        (fun _ _ => .ok [7])).state.cache = [] ++ [7] ∧
    ((mkDateLookupCache Nat Nat 1).fetchNow 100
        (fun _ _ => .ok [7])).result = .ok ([] ++ [7]) :=
  (fetch_append_only Nat Nat (mkDateLookupCache Nat Nat 1) 100
    (fun _ _ => .ok [7]) (100 - 1 * daySeconds) 100 [7] []).1
    (by decide) rfl

/-- C5: a fetch execution queries the range from `lastEndTime` when it is
set — otherwise from `now` minus the lookup window in days — up to `now`,
the instant at which the fetch executes. -/
theorem fetchNow_start_end (α ε : Type) (c : DateLookupCache α ε)
    (now : Time) (getter : Time → Time → Except ε (List α)) :
    ∀ p ∈ (c.fetchNow now getter).getterCalls,
      p.1 = (match c.lastEndTime with
             | none => momentSubtractDays now c.initialTimeAgoDays
             | some t => t) ∧
      p.2 = now := by
  intro p hp
  simp only [DateLookupCache.fetchNow] at hp
  have : p.1 = computeStart c.lastEndTime c.initialTimeAgoDays now ∧
      p.2 = now := by
    split at hp
    · simp at hp
    · split at hp <;> simp at hp <;> simp [hp]
  simpa [computeStart] using this

/-- Witness for C5: the first fetch of a one-day cache at `t = 100` invokes
the getter with start `100 − 86400` and end `100`. -/
theorem fetchNow_start_end_witness :
    ((100 - 1 * daySeconds : Time), (100 : Time)).1 =
        momentSubtractDays 100 1 ∧
      ((100 - 1 * daySeconds : Time), (100 : Time)).2 = 100 :=
  fetchNow_start_end Nat Nat (mkDateLookupCache Nat Nat 1) 100
    (fun _ _ => .ok []) (100 - 1 * daySeconds, 100) (by decide)

/-- C6: `lastEndTime` is set to the call's end boundary for every getter
behaviour — before and independently of the query result — whenever the
chain is clean, and it never decreases across any `fetch` call (provided
the clock did not go backwards). -/
theorem fetch_lastEndTime_monotone (α ε : Type) (c : DateLookupCache α ε)
    (now : Time) (getter : Time → Time → Except ε (List α)) :
    (c.chainErr = none →
      (c.fetch now getter).state.lastEndTime = some now) ∧
    (∀ t, c.lastEndTime = some t → t ≤ now →
      ∃ t', (c.fetch now getter).state.lastEndTime = some t' ∧ t ≤ t') := by
  constructor
  · exact fetch_lastEndTime_of_clean c now getter
  · intro t ht hle
    cases hc : c.chainErr with
    | some e =>
      refine ⟨t, ?_, le_rfl⟩
      simp [DateLookupCache.fetch, hc, ht]
    | none =>
      exact ⟨now, fetch_lastEndTime_of_clean c now getter hc, hle⟩

/-- Witness for C6: a clean cache with boundary 50 fetched at `t = 60` by a
failing getter still ends with boundary 60 ≥ 50. -/
theorem fetch_lastEndTime_monotone_witness :
    (({ initialTimeAgoDays := 1, lastEndTime := some 50, cache := [],
          chainErr := none } : DateLookupCache Nat Nat).fetch 60
        (fun _ _ => .error 3)).state.lastEndTime = some 60 ∧
    ∃ t', (({ initialTimeAgoDays := 1, lastEndTime := some 50, cache := [],
              chainErr := none } : DateLookupCache Nat Nat).fetch 60
          (fun _ _ => .error 3)).state.lastEndTime = some t' ∧
      (50 : Time) ≤ t' :=
  ⟨(fetch_lastEndTime_monotone Nat Nat _ 60 (fun _ _ => .error 3)).1 rfl,
   (fetch_lastEndTime_monotone Nat Nat _ 60 (fun _ _ => .error 3)).2 50 rfl
     (by norm_num)⟩

/-- C7: when the canonical string forms of `start` and `end` coincide, the
fetch skips the getter entirely and resolves immediately with the unchanged
cache; and on a first call (`lastEndTime` unset) that no-op branch is taken
exactly when the lookup window is zero days. -/
theorem fetchNow_noop (α ε : Type) (c : DateLookupCache α ε) (now : Time)
    (getter : Time → Time → Except ε (List α)) :
    (momentFormat (computeStart c.lastEndTime c.initialTimeAgoDays now) =
        momentFormat now →
      (c.fetchNow now getter).getterCalls = [] ∧
      (c.fetchNow now getter).result = .ok c.cache ∧
      (c.fetchNow now getter).state.cache = c.cache) ∧
    (c.lastEndTime = none →
      (momentFormat (computeStart c.lastEndTime c.initialTimeAgoDays now) =
          momentFormat now ↔ c.initialTimeAgoDays = 0)) := by
  constructor
  · intro hfmt
    simp [DateLookupCache.fetchNow, hfmt]
  · intro hnone
    rw [hnone]
    constructor
    · intro hfmt
      have h2 : now - (c.initialTimeAgoDays : Int) * 86400 = now :=
        momentFormat_injective hfmt
      have h3 : ∀ x : Int, x - (c.initialTimeAgoDays : Int) * 86400 = x →
          c.initialTimeAgoDays = 0 := by
        intro x hx
        omega
      exact h3 now h2
    · intro hzero
      simp [computeStart, momentSubtractDays, hzero]

/-- Witness for C7: a cache whose boundary equals the current instant
no-ops (getter skipped, cache `[9]` returned unchanged), and on a fresh
zero-day cache the no-op condition holds on the first call. -/
theorem fetchNow_noop_witness :
    ((({ initialTimeAgoDays := 3, lastEndTime := some 100, cache := [9],
          chainErr := none } : DateLookupCache Nat Nat).fetchNow 100
        (fun _ _ => .ok [7])).getterCalls = [] ∧
      (({ initialTimeAgoDays := 3, lastEndTime := some 100, cache := [9],
          chainErr := none } : DateLookupCache Nat Nat).fetchNow 100
        (fun _ _ => .ok [7])).result = .ok [9] ∧
      (({ initialTimeAgoDays := 3, lastEndTime := some 100, cache := [9],
          chainErr := none } : DateLookupCache Nat Nat).fetchNow 100
        (fun _ _ => .ok [7])).state.cache = [9]) ∧
    momentFormat (computeStart (mkDateLookupCache Nat Nat 0).lastEndTime
        (mkDateLookupCache Nat Nat 0).initialTimeAgoDays 5) =
      momentFormat 5 :=
  ⟨(fetchNow_noop Nat Nat _ 100 (fun _ _ => .ok [7])).1 rfl,
   ((fetchNow_noop Nat Nat (mkDateLookupCache Nat Nat 0) 5
      (fun _ _ => .ok [7])).2 rfl).mpr rfl⟩

theorem fetch_poisoned_eq (c : DateLookupCache α ε) (now : Time)
    (getter : Time → Time → Except ε (List α)) (e : ε)
    (h : c.chainErr = some e) :
    c.fetch now getter =
      { state := c, result := .error e, getterCalls := [] } := by
  simp [DateLookupCache.fetch, h]

theorem runFetches_poisoned (α ε : Type) (e : ε)
    (steps : List (Time × (Time → Time → Except ε (List α)))) :
    ∀ c : DateLookupCache α ε, c.chainErr = some e →
      (runFetches c steps).state = c ∧
      (runFetches c steps).results = steps.map (fun _ => .error e) ∧
      (runFetches c steps).getterCalls = [] := by
  induction steps with
  | nil => exact fun c _ => ⟨rfl, rfl, rfl⟩
  | cons sg rest ih =>
    intro c h
    obtain ⟨now', getter'⟩ := sg
    obtain ⟨h1, h2, h3⟩ := ih c h
    refine ⟨?_, ?_, ?_⟩ <;>
      simp [runFetches, fetch_poisoned_eq c now' getter' e h, h1, h2, h3]

/-- C3: a fetch whose promise rejects leaves the chain rejected with that
error, and from a rejected chain every later `fetch()` call rejects with
the same error without invoking the getter, appending to the cache, or
touching `lastEndTime` — the `.then`-built chain has no rejection handler
and stays rejected forever. -/
theorem fetch_rejection_poisons_chain (α ε : Type) (c : DateLookupCache α ε)
    (now : Time) (getter : Time → Time → Except ε (List α)) (e : ε)
    (steps : List (Time × (Time → Time → Except ε (List α)))) :
    ((c.fetch now getter).result = .error e →
      (c.fetch now getter).state.chainErr = some e) ∧
    (c.chainErr = some e →
      (runFetches c steps).state = c ∧
      (runFetches c steps).results = steps.map (fun _ => .error e) ∧
      (runFetches c steps).getterCalls = []) := by
  refine ⟨?_, runFetches_poisoned α ε e steps c⟩
  intro hr
  cases hc : c.chainErr with
  | some e' =>
    rw [fetch_poisoned_eq c now getter e' hc] at hr
    have he : e' = e := by simpa using hr
    rw [fetch_poisoned_eq c now getter e' hc]
    show c.chainErr = some e
    rw [hc, he]
  | none =>
    simp only [DateLookupCache.fetch, hc] at hr ⊢
    cases hg : (c.fetchNow now getter).result with
    | ok v => simp [hg] at hr
    | error e' =>
      simp [hg] at hr ⊢
      exact hr

/-- Witness for C3: after a first fetch whose getter rejects with 42, a
two-step run of further fetches changes nothing, performs no getter call,
and rejects both times with 42. -/
theorem fetch_rejection_poisons_chain_witness :
    (runFetches
        ((mkDateLookupCache Nat Nat 1).fetch 100
          (fun _ _ => .error 42)).state
        [(200, fun _ _ => .ok [7]), (300, fun _ _ => .ok [8])]).state =
      ((mkDateLookupCache Nat Nat 1).fetch 100
        (fun _ _ => .error 42)).state ∧
    (runFetches
        ((mkDateLookupCache Nat Nat 1).fetch 100
          (fun _ _ => .error 42)).state
        [(200, fun _ _ => .ok [7]), (300, fun _ _ => .ok [8])]).results =
      [.error 42, .error 42] ∧
    (runFetches
        ((mkDateLookupCache Nat Nat 1).fetch 100
          (fun _ _ => .error 42)).state
        [(200, fun _ _ => .ok [7]), (300, fun _ _ => .ok [8])]).getterCalls =
      [] := by
  have h := (fetch_rejection_poisons_chain Nat Nat
    ((mkDateLookupCache Nat Nat 1).fetch 100 (fun _ _ => .error 42)).state
    100 (fun _ _ => .error 42) 42
    [(200, fun _ _ => .ok [7]), (300, fun _ _ => .ok [8])]).2 (by rfl)
  exact ⟨h.1, h.2.1, h.2.2⟩

/-- C2 evidence at the failing input: the getter rejects on the first fetch
of a fresh one-day cache at `t = 100`.  The call rejects, the cache stays
`[]`, and `lastEndTime` still advances to 100 — but the next `fetch()` at
`t = 200` rejects with the same error without invoking the getter at all,
instead of querying the window from 100: `.then` on the rejected chain
promise skips the callback. -/
theorem fetch_failed_window_behaviour :
    ((mkDateLookupCache Nat Nat 1).fetch 100 (fun _ _ => .error 42)).result
        = .error 42 ∧
    ((mkDateLookupCache Nat Nat 1).fetch 100
        (fun _ _ => .error 42)).state.cache = [] ∧
    ((mkDateLookupCache Nat Nat 1).fetch 100
        (fun _ _ => .error 42)).state.lastEndTime = some 100 ∧
    (((mkDateLookupCache Nat Nat 1).fetch 100
        (fun _ _ => .error 42)).state.fetch 200
        (fun _ _ => .ok [7])).result = .error 42 ∧
    (((mkDateLookupCache Nat Nat 1).fetch 100
        (fun _ _ => .error 42)).state.fetch 200
        (fun _ _ => .ok [7])).getterCalls = [] ∧
    (((mkDateLookupCache Nat Nat 1).fetch 100
        (fun _ _ => .error 42)).state.fetch 200
        (fun _ _ => .ok [7])).state.lastEndTime = some 100 :=
  ⟨rfl, rfl, rfl, rfl, rfl, rfl⟩

/-- C1: over every interleaving of issuance, execution and getter
settlement events on one instance, the calls that began execution did so in
strict FIFO issuance order (ids `0, 1, 2, …`); each execution's computed
`start` equals the `end` recorded by the directly preceding execution
(`chainAdj`), so a call's getter invocation observes the `lastEndTime`
written by its predecessor, never a stale value; and the getter is invoked
exactly for the non-no-op executions with those boundaries. -/
theorem fetch_serialization (α ε : Type) (days : Nat)
    (evs : List (ChainEv α ε)) :
    (runChain (mkChainSys α ε days) evs).executed =
      List.range (runChain (mkChainSys α ε days) evs).executed.length ∧
    chainAdj (runChain (mkChainSys α ε days) evs).execLog = true ∧
    (runChain (mkChainSys α ε days) evs).lastEndTime =
      ((runChain (mkChainSys α ε days) evs).execLog.getLast?).map Prod.snd ∧
    (runChain (mkChainSys α ε days) evs).getterLog =
      (runChain (mkChainSys α ε days) evs).execLog.filter
        (fun p => decide (¬ momentFormat p.1 = momentFormat p.2)) := by
  obtain ⟨h₁, h₂, h₃, h₄⟩ := runChain_inv (mkChainSys_inv α ε days) evs
  refine ⟨?_, h₂, h₁, h₄⟩
  have hlen : (runChain (mkChainSys α ε days) evs).executed.length ≤
      (runChain (mkChainSys α ε days) evs).nextId := by
    have := congrArg List.length h₃
    simp at this
    omega
  calc (runChain (mkChainSys α ε days) evs).executed
      = ((runChain (mkChainSys α ε days) evs).executed ++
          (runChain (mkChainSys α ε days) evs).queued).take
          (runChain (mkChainSys α ε days) evs).executed.length :=
        (List.take_left _ _).symm
    _ = (List.range (runChain (mkChainSys α ε days) evs).nextId).take
          (runChain (mkChainSys α ε days) evs).executed.length := by
        rw [h₃]
    _ = List.range (min (runChain (mkChainSys α ε days) evs).executed.length
          (runChain (mkChainSys α ε days) evs).nextId) :=
        List.take_range _ _
    _ = List.range (runChain (mkChainSys α ε days) evs).executed.length := by
        rw [min_eq_left hlen]

/-- C8: `logs` resolves with the received items parsed and reversed, and
depends on the transport only at its `logs` request path (which embeds the
canonical string forms of `start` and `end`); `history` satisfies the
identical contract against the stat's history path. -/
theorem logs_history_contract (τ β : Type)
    (transport transport₂ : String → Except τ (ResponseBody β))
    (parse : String → Time) (api : GreenhouseApi)
    (logLevel stat : String) (start endTime : Time)
    (l : List (RawItem β)) :
    (transport (api.logsPath logLevel start endTime) =
        .ok { items := some l } →
      api.logs transport parse logLevel start endTime =
        .ok ((l.map (parseItem parse)).reverse)) ∧
    (transport (api.logsPath logLevel start endTime) =
        transport₂ (api.logsPath logLevel start endTime) →
      api.logs transport parse logLevel start endTime =
        api.logs transport₂ parse logLevel start endTime) ∧
    (transport (api.historyPath stat start endTime) =
        .ok { items := some l } →
      api.history transport parse stat start endTime =
        .ok ((l.map (parseItem parse)).reverse)) ∧
    (transport (api.historyPath stat start endTime) =
        transport₂ (api.historyPath stat start endTime) →
      api.history transport parse stat start endTime =
        api.history transport₂ parse stat start endTime) := by
  refine ⟨?_, ?_, ?_, ?_⟩ <;> intro h <;>
    simp [GreenhouseApi.logs, GreenhouseApi.history, h]

/-- Witness for C8: a transport answering one raw item makes `logs` and
`history` resolve with the parsed, reversed list. -/
theorem logs_history_contract_witness :
    GreenhouseApi.logs (τ := Unit) ⟨"b"⟩
        (fun _ => .ok { items := some [⟨"5", (3 : Nat)⟩] }) (fun _ => 7)
        "info" 1 2 =
      .ok (([(⟨"5", 3⟩ : RawItem Nat)].map (parseItem (fun _ => 7))).reverse) ∧
    GreenhouseApi.history (τ := Unit) ⟨"b"⟩
        (fun _ => .ok { items := some [⟨"5", (3 : Nat)⟩] }) (fun _ => 7)
        "temperature" 1 2 =
      .ok (([(⟨"5", 3⟩ : RawItem Nat)].map (parseItem (fun _ => 7))).reverse) :=
  ⟨(logs_history_contract Unit Nat
      (fun _ => .ok { items := some [⟨"5", 3⟩] })
      (fun _ => .ok { items := some [⟨"5", 3⟩] }) (fun _ => 7) ⟨"b"⟩
      "info" "temperature" 1 2 [⟨"5", 3⟩]).1 rfl,
   (logs_history_contract Unit Nat
      (fun _ => .ok { items := some [⟨"5", 3⟩] })
      (fun _ => .ok { items := some [⟨"5", 3⟩] }) (fun _ => 7) ⟨"b"⟩
      "info" "temperature" 1 2 [⟨"5", 3⟩]).2.2.1 rfl⟩

/-- C9: `logs` and `history` fail with the transport error when the request
fails, and with the malformed-response error when the body lacks the
`items` array. -/
theorem logs_history_errors (τ β : Type)
    (transport : String → Except τ (ResponseBody β)) (parse : String → Time)
    (api : GreenhouseApi) (logLevel stat : String) (start endTime : Time)
    (err : τ) :
    (transport (api.logsPath logLevel start endTime) = .error err →
      api.logs transport parse logLevel start endTime =
        .error (.transport err)) ∧
    (transport (api.logsPath logLevel start endTime) = .ok { items := none } →
      api.logs transport parse logLevel start endTime =
        .error .malformedResponse) ∧
    (transport (api.historyPath stat start endTime) = .error err →
      api.history transport parse stat start endTime =
        .error (.transport err)) ∧
    (transport (api.historyPath stat start endTime) =
        .ok { items := none } →
      api.history transport parse stat start endTime =
        .error .malformedResponse) := by
  refine ⟨?_, ?_, ?_, ?_⟩ <;> intro h <;>
    simp [GreenhouseApi.logs, GreenhouseApi.history, h]

/-- Witness for C9: a failing transport yields the transport error; a body
without `items` yields the malformed-response error. -/
theorem logs_history_errors_witness :
    GreenhouseApi.logs (β := Nat) ⟨"b"⟩ (fun _ => .error 9) (fun _ => 7)
        "info" 1 2 = .error (.transport 9) ∧
    GreenhouseApi.history (β := Nat) (τ := Nat) ⟨"b"⟩
        (fun _ => .ok { items := none }) (fun _ => 7) "temperature" 1 2 =
      .error .malformedResponse :=
  ⟨(logs_history_errors Nat Nat (fun _ => .error 9) (fun _ => 7) ⟨"b"⟩
      "info" "temperature" 1 2 9).1 rfl,
   (logs_history_errors Nat Nat (fun _ => .ok { items := none })
      (fun _ => 7) ⟨"b"⟩ "info" "temperature" 1 2 9).2.2.2 rfl⟩

/-- C10: after `resetStatHistory(n)` the four stat caches are fresh — empty
record list, unset boundary — while the logs cache is exactly what it was;
and resetting the logs cache leaves all four stat caches untouched: the
five caches are independent. -/
theorem resetStatHistory_isolation (σ lα ε : Type) (g : Greenhouse σ lα ε)
    (n m : Nat) :
    ((g.resetStatHistory n).temperatureCache.cache = [] ∧
      (g.resetStatHistory n).temperatureCache.lastEndTime = none) ∧
    ((g.resetStatHistory n).humidityCache.cache = [] ∧
      (g.resetStatHistory n).humidityCache.lastEndTime = none) ∧
    ((g.resetStatHistory n).fanCache.cache = [] ∧
      (g.resetStatHistory n).fanCache.lastEndTime = none) ∧
    ((g.resetStatHistory n).waterCache.cache = [] ∧
      (g.resetStatHistory n).waterCache.lastEndTime = none) ∧
    (g.resetStatHistory n).logsCache = g.logsCache ∧
    (g.resetLogHistory m).temperatureCache = g.temperatureCache ∧
    (g.resetLogHistory m).humidityCache = g.humidityCache ∧
    (g.resetLogHistory m).fanCache = g.fanCache ∧
    (g.resetLogHistory m).waterCache = g.waterCache :=
  ⟨⟨rfl, rfl⟩, ⟨rfl, rfl⟩, ⟨rfl, rfl⟩, ⟨rfl, rfl⟩, rfl, rfl, rfl, rfl, rfl⟩

end GreenhouseGraphs
